import Mathlib

/-!
Verification of src/src/db/sysdb_ssh.c (SSSD sysdb SSH host cache).

The C functions are shallowly embedded as pure Lean functions. The sysdb/ldb
layer underneath (sysdb_store_custom, sysdb_search_custom, transactions) is an
external collaborator; it is modelled as a pure oracle of responses
(a structure of response values and functions), and every embedded function
additionally returns the sequence of store calls it issued (its event trace),
so that frame conditions (no read, no transaction, exactly one write, payloads
of writes) become provable statements. sysdb_ssh.c issues at most one search
and one write per call, so a fixed-response oracle captures any one sequential
execution. Allocation failure (talloc / sysdb_attrs ENOMEM paths) is not
modelled: attribute adds are total functions.
-/

namespace SysdbSsh

/-- Attribute values held in a sysdb attribute bag: strings
(sysdb_attrs_add_string, sysdb_attrs_add_val) or times
(sysdb_attrs_add_time_t). -/
inductive Val where
  | str (s : String)
  | time (t : Nat)
deriving DecidableEq

/-- An in-memory sysdb_attrs bag: a list of (attribute name, value) pairs;
each sysdb_attrs_add_* appends at the end, so order records insertion order. -/
abbrev SysdbAttrs := List (String × Val)

/-- errno value EOK. -/
def EOK : Nat := 0

/-- errno value ENOENT. -/
def ENOENT : Nat := 2

/-- errno value Eio (used only to instantiate oracles in examples). -/
def Eio : Nat := 5

/-- errno value ENOMEM. -/
def ENOMEM : Nat := 12

/-- errno value EINVAL: the code sysdb_get_ssh_host returns when more than one
record matches a supposedly unique name (sysdb_ssh.c line 306). -/
def EINVAL : Nat := 22

/-- The C macro SYSDB_OBJECTCLASS: the attribute key of the object-class
marker. -/
def SYSDB_OBJECTCLASS_ATTR : String := "objectClass"

/-- The C macro SYSDB_SSH_HOST_OC: the object-class marker value for SSH host
records. -/
def SYSDB_SSH_HOST_OC : String := "sshHost"

/-- The C macro SYSDB_NAME. -/
def SYSDB_NAME : String := "name"

/-- The C macro SYSDB_NAME_ALIAS. -/
def SYSDB_NAME_ALIAS : String := "nameAlias"

/-- The C macro SYSDB_LAST_UPDATE. -/
def SYSDB_LAST_UPDATE : String := "lastUpdate"

/-- The C macro SYSDB_SSH_KNOWN_HOSTS_EXPIRE. -/
def SYSDB_SSH_KNOWN_HOSTS_EXPIRE : String := "sshKnownHostsExpire"

/-- The C macro SSH_HOSTS_SUBDIR: the namespace under which host records are
grouped. -/
def SSH_HOSTS_SUBDIR : String := "ssh_hosts"

/-- One element of an ldb_message: an attribute name together with its values
(ldb_message_element with num_values entries). -/
structure LdbMessageElement where
  name : String
  values : List Val
deriving DecidableEq

/-- An ldb_message as returned by a search: a list of elements. -/
structure LdbMessage where
  elements : List LdbMessageElement
deriving DecidableEq

/-- ldb_msg_find_element: find the element carrying the given attribute name. -/
def ldb_msg_find_element (msg : LdbMessage) (attrName : String) :
    Option LdbMessageElement :=
  msg.elements.find? (fun el => el.name == attrName)

/-- Search filters built by sysdb_ssh.c with talloc_asprintf: an exact-match
filter string of shape (attr=value) (line 293) or a range filter of shape
(attr>=bound) (line 338). The two format strings are embedded structurally;
for the strings this file builds the constructors are in bijection with the
printed filters. -/
inductive LdbFilter where
  | exact (attr : String) (value : String)
  | atLeast (attr : String) (bound : Nat)
deriving DecidableEq

/-- A store call issued by the embedded code, with the errno the collaborator
answered where relevant: transaction begin/commit/cancel, a search with its
filter, or a sysdb_store_custom write with its full attribute payload. -/
inductive Event where
  | txStart (ret : Nat)
  | txCommit (ret : Nat)
  | txCancel (ret : Nat)
  | search (f : LdbFilter)
  | storeCustom (name : String) (subdir : String) (attrs : SysdbAttrs)
deriving DecidableEq

/-- The sysdb/ldb collaborator as a pure oracle: fixed errno answers for the
three transaction calls, a response function for searches (errno plus result
messages), and an errno answer for sysdb_store_custom writes. -/
structure StoreOps where
  txStart : Nat
  txCommit : Nat
  txCancel : Nat
  search : LdbFilter → Option (List String) → Nat × List LdbMessage
  store : String → SysdbAttrs → Nat

/-- sysdb_attrs_add_string: append a string value under a key. -/
def sysdb_attrs_add_string (attrs : SysdbAttrs) (k v : String) : SysdbAttrs :=
  attrs ++ [(k, Val.str v)]

/-- sysdb_attrs_add_val: append an existing value verbatim under a key. -/
def sysdb_attrs_add_val (attrs : SysdbAttrs) (k : String) (v : Val) :
    SysdbAttrs :=
  attrs ++ [(k, v)]

/-- sysdb_attrs_add_time_t: append a time value under a key. -/
def sysdb_attrs_add_time_t (attrs : SysdbAttrs) (k : String) (t : Nat) :
    SysdbAttrs :=
  attrs ++ [(k, Val.time t)]

/-- sysdb_update_ssh_host (sysdb_ssh.c lines 26-54): one sysdb_store_custom
write of the given attribute bag under SSH_HOSTS_SUBDIR, propagating the
store's errno. -/
def sysdb_update_ssh_host (ops : StoreOps) (name : String)
    (attrs : SysdbAttrs) : Nat × List Event :=
  (ops.store name attrs, [Event.storeCustom name SSH_HOSTS_SUBDIR attrs])

/-- Result of sysdb_search_ssh_hosts: the returned errno and the hosts out
parameter (num_hosts is its length). -/
structure SearchOut where
  ret : Nat
  hosts : List LdbMessage
deriving DecidableEq

/-- sysdb_search_ssh_hosts (sysdb_ssh.c lines 233-273). A failing search
propagates its errno (hosts left unset, modelled as empty); ENOENT from the
search sets hosts to none/zero but the function still returns ENOENT (ret is
not overwritten on that path); success steals the results and returns EOK. -/
def sysdb_search_ssh_hosts (ops : StoreOps) (filter : LdbFilter)
    (attrs : Option (List String)) : SearchOut × List Event :=
  let res := ops.search filter attrs
  let evs := [Event.search filter]
  if res.1 ≠ EOK ∧ res.1 ≠ ENOENT then (⟨res.1, []⟩, evs)
  else if res.1 = ENOENT then (⟨ENOENT, []⟩, evs)
  else (⟨EOK, res.2⟩, evs)

/-- Result of sysdb_get_ssh_host: errno and the host out parameter (set only
on success). -/
structure GetHostOut where
  ret : Nat
  host : Option LdbMessage
deriving DecidableEq

/-- sysdb_get_ssh_host (sysdb_ssh.c lines 275-319): exact-name search; more
than one match returns EINVAL; otherwise the code reads hosts[0]
unconditionally. The overall result is none exactly when that read is out of
bounds (the search succeeded with zero results), modelling the undefined
behavior of dereferencing a NULL result array. -/
def sysdb_get_ssh_host (ops : StoreOps) (name : String)
    (attrs : Option (List String)) : Option GetHostOut × List Event :=
  let filter := LdbFilter.exact SYSDB_NAME name
  let (s, evs) := sysdb_search_ssh_hosts ops filter attrs
  if s.ret ≠ EOK then (some ⟨s.ret, none⟩, evs)
  else if s.hosts.length > 1 then (some ⟨EINVAL, none⟩, evs)
  else
    match s.hosts.head? with
    | none => (none, evs)
    | some h => (some ⟨EOK, some h⟩, evs)

/-- Result of sysdb_store_ssh_host: the returned errno, the final state of the
caller-owned attrs bag (mutated in place by the C code), and the trace of
store calls issued. -/
structure UpsertOut where
  ret : Nat
  attrs : SysdbAttrs
  events : List Event
deriving DecidableEq

/-- sysdb_store_ssh_host (sysdb_ssh.c lines 56-177): inject object class and
name; with an alias present, begin a transaction, read the existing aliases
through sysdb_get_ssh_host, copy them all into attrs, append the alias when
not already among them, inject last_update, write, commit; on any error exit
while the transaction is open (including a failed commit) cancel it. alias? =
none models a NULL alias pointer. The result is none exactly when the
out-of-bounds read inside sysdb_get_ssh_host propagates. -/
def sysdb_store_ssh_host (ops : StoreOps) (name : String)
    (alias? : Option String) (now : Nat) (attrs0 : SysdbAttrs) :
    Option UpsertOut :=
  let a1 := sysdb_attrs_add_string attrs0 SYSDB_OBJECTCLASS_ATTR SYSDB_SSH_HOST_OC
  let a2 := sysdb_attrs_add_string a1 SYSDB_NAME name
  match alias? with
  | none =>
    let a3 := sysdb_attrs_add_time_t a2 SYSDB_LAST_UPDATE now
    let w := sysdb_update_ssh_host ops name a3
    some ⟨w.1, a3, w.2⟩
  | some al =>
    let retTs := ops.txStart
    if retTs ≠ EOK then some ⟨retTs, a2, [Event.txStart retTs]⟩
    else
      let evs0 := [Event.txStart retTs]
      let g := sysdb_get_ssh_host ops name (some [SYSDB_NAME_ALIAS])
      match g.1 with
      | none => none
      | some gh =>
        if gh.ret ≠ EOK ∧ gh.ret ≠ ENOENT then
          some ⟨gh.ret, a2, evs0 ++ g.2 ++ [Event.txCancel ops.txCancel]⟩
        else
          let oldVals : List Val :=
            match gh.host with
            | none => []
            | some h =>
              match ldb_msg_find_element h SYSDB_NAME_ALIAS with
              | none => []
              | some el => el.values
          let a3 := a2 ++ oldVals.map (fun v => (SYSDB_NAME_ALIAS, v))
          let a4 :=
            if Val.str al ∈ oldVals then a3
            else sysdb_attrs_add_string a3 SYSDB_NAME_ALIAS al
          let a5 := sysdb_attrs_add_time_t a4 SYSDB_LAST_UPDATE now
          let w := sysdb_update_ssh_host ops name a5
          if w.1 ≠ EOK then
            some ⟨w.1, a5, evs0 ++ g.2 ++ w.2 ++ [Event.txCancel ops.txCancel]⟩
          else
            let retC := ops.txCommit
            if retC ≠ EOK then
              some ⟨retC, a5, evs0 ++ g.2 ++ w.2 ++
                    [Event.txCommit retC, Event.txCancel ops.txCancel]⟩
            else
              some ⟨EOK, a5, evs0 ++ g.2 ++ w.2 ++ [Event.txCommit retC]⟩

/-- sysdb_update_ssh_known_host_expire (sysdb_ssh.c lines 179-223): build a
fresh bag holding only known_hosts_expire = now + timeout and write it through
sysdb_update_ssh_host. -/
def sysdb_update_ssh_known_host_expire (ops : StoreOps) (name : String)
    (now : Nat) (known_hosts_timeout : Nat) : Nat × List Event :=
  let attrs := sysdb_attrs_add_time_t [] SYSDB_SSH_KNOWN_HOSTS_EXPIRE
      (now + known_hosts_timeout)
  sysdb_update_ssh_host ops name attrs

/-- sysdb_get_ssh_known_hosts (sysdb_ssh.c lines 321-352): range search for
known_hosts_expire >= now, passed through sysdb_search_ssh_hosts verbatim. -/
def sysdb_get_ssh_known_hosts (ops : StoreOps) (now : Nat)
    (attrs : Option (List String)) : SearchOut × List Event :=
  sysdb_search_ssh_hosts ops (LdbFilter.atLeast SYSDB_SSH_KNOWN_HOSTS_EXPIRE now)
    attrs

/-! Derived notions over traces. -/

/-- Whether the event is a search. -/
def isSearchEv : Event → Bool
  | Event.search _ => true
  | _ => false

/-- Whether the event is a transaction call. -/
def isTxEv : Event → Bool
  | Event.txStart _ => true
  | Event.txCommit _ => true
  | Event.txCancel _ => true
  | _ => false

/-- Whether the event is a sysdb_store_custom write. -/
def isWriteEv : Event → Bool
  | Event.storeCustom _ _ _ => true
  | _ => false

/-- Whether a transaction is still open after the given call sequence,
conservatively: a successful begin opens it, a successful commit or any cancel
closes it, and a FAILED commit is treated as leaving it open - which is why
sysdb_store_ssh_host cancels even after a failed commit. -/
def txOpenAfter (evs : List Event) : Bool :=
  evs.foldl
    (fun o e =>
      match e with
      | Event.txStart r => if r = EOK then true else o
      | Event.txCommit r => if r = EOK then false else o
      | Event.txCancel _ => false
      | _ => o)
    false

/-- The alias values the upsert read path observes for a name under an
oracle: the SYSDB_NAME_ALIAS values of the single record sysdb_get_ssh_host
returns, or empty for not-found and every error path. -/
def preAliasesOf (ops : StoreOps) (name : String) : List Val :=
  match (sysdb_get_ssh_host ops name (some [SYSDB_NAME_ALIAS])).1 with
  | some gh =>
    match gh.host with
    | some h =>
      match ldb_msg_find_element h SYSDB_NAME_ALIAS with
      | some el => el.values
      | none => []
    | none => []
  | none => []

/-- The alias value list upsert is supposed to persist: every pre-existing
alias value verbatim, with the new alias appended once when absent. -/
def mergedAliases (ops : StoreOps) (name al : String) : List Val :=
  let pre := preAliasesOf ops name
  if Val.str al ∈ pre then pre else pre ++ [Val.str al]

/-! A concrete object store, to instantiate the oracle. The store layer
(sysdb_store_custom, sysdb_search_custom) is not part of src/, so its
semantics are modelled from the spec where noted. -/

/-- A concrete store state: association list from record key to its attribute
bag, within the single SSH_HOSTS_SUBDIR namespace. -/
abbrev StoreState := List (String × SysdbAttrs)

/-- The values an attribute bag holds under one key, in order. -/
def valuesOf (a : SysdbAttrs) (k : String) : List Val :=
  (a.filter (fun p => p.1 == k)).map Prod.snd

/-- Whether an attribute bag matches a filter: exact filters require the exact
string value under the key, range filters require some time value at least the
bound. -/
def attrsMatch (f : LdbFilter) (a : SysdbAttrs) : Bool :=
  match f with
  | LdbFilter.exact k v => a.any (fun p => p.1 == k && p.2 == Val.str v)
  | LdbFilter.atLeast k n =>
    a.any
      (fun p =>
        p.1 == k &&
          match p.2 with
          | Val.time t => decide (n ≤ t)
          | Val.str _ => false)

/-- Project an attribute bag to an ldb_message, keeping only the requested
attributes (none requests all); attributes with no values yield no element. -/
def attrsToMsg (req : Option (List String)) (a : SysdbAttrs) : LdbMessage :=
  match req with
  | none =>
    ⟨((a.map Prod.fst).eraseDups).filterMap
      (fun k =>
        match valuesOf a k with
        | [] => none
        | vs => some ⟨k, vs⟩)⟩
  | some ks =>
    ⟨ks.filterMap
      (fun k =>
        match valuesOf a k with
        | [] => none
        | vs => some ⟨k, vs⟩)⟩

/-- Modelled from the spec: sysdb_search_custom, the store layer's filtered
search, is not under src/. Spec section 6 gives search(namespace, filter,
requestedAttributes) with exact-match and greater-or-equal filters. Its
zero-match contract is the one sysdb_ssh.c itself assumes: lines 253-263
handle ENOENT from it as the no-match outcome, and section 4.2 requires
getByName to report a distinguishable not-found, so the search returns ENOENT
when no record matches and EOK with the (necessarily nonempty) matches
otherwise. -/
def sysdb_search_custom (st : StoreState) (f : LdbFilter)
    (req : Option (List String)) : Nat × List LdbMessage :=
  let ms := st.filter (fun p => attrsMatch f p.2)
  if ms.isEmpty then (ENOENT, [])
  else (EOK, ms.map (fun p => attrsToMsg req p.2))

/-- Modelled from the spec: the merge of one storeMerge write into an existing
bag (spec section 6) - replace only the attributes present in the written set,
leaving others untouched. -/
def mergeAttrs (old w : SysdbAttrs) : SysdbAttrs :=
  old.filter (fun p => !(w.any (fun q => q.1 == p.1))) ++ w

/-- Look up a record's attribute bag by its store key (first entry with that
key). -/
def lookupRec : StoreState → String → Option SysdbAttrs
  | [], _ => none
  | p :: t, n => if p.1 = n then some p.2 else lookupRec t n

/-- Modelled from the spec: storeMerge (spec section 6) - create the record if
absent (appended at the end); otherwise replace only the attributes present in
the written set on the (unique) record with that key. -/
def storeMerge : StoreState → String → SysdbAttrs → StoreState
  | [], n, w => [(n, w)]
  | p :: t, n, w =>
    if p.1 = n then (p.1, mergeAttrs p.2 w) :: t else p :: storeMerge t n w

/-- The oracle induced by a concrete store snapshot: transactions succeed,
searches evaluate against the snapshot, writes are acknowledged with EOK
(their effect is applied separately through applyEvents - sysdb_ssh.c reads
strictly before its single write, so snapshot semantics coincide with
sequential execution). -/
def opsOf (st : StoreState) : StoreOps :=
  { txStart := EOK
    txCommit := EOK
    txCancel := EOK
    search := fun f req => sysdb_search_custom st f req
    store := fun _ _ => EOK }

/-- Apply the writes of a trace to a concrete store state, in order. -/
def applyEvents (st : StoreState) (evs : List Event) : StoreState :=
  evs.foldl
    (fun s e =>
      match e with
      | Event.storeCustom n _ w => storeMerge s n w
      | _ => s)
    st

/-- The alias values stored for a record key: valuesOf under SYSDB_NAME_ALIAS,
empty when no record exists. -/
def storedAliases (st : StoreState) (name : String) : List Val :=
  match lookupRec st name with
  | none => []
  | some a => valuesOf a SYSDB_NAME_ALIAS

/-- A wellformed store: record keys are pairwise distinct, and every record's
SYSDB_NAME values consist exactly of its own key (the name attribute mirrors
the store key, as every record written by this module satisfies). -/
def Wellformed (st : StoreState) : Prop :=
  st.Pairwise (fun p q => p.1 ≠ q.1) ∧
    ∀ p ∈ st, valuesOf p.2 SYSDB_NAME = [Val.str p.1]

/-- The values stored for a record key under one attribute, empty when the
record does not exist. -/
def storedValues (st : StoreState) (name k : String) : List Val :=
  match lookupRec st name with
  | none => []
  | some a => valuesOf a k

/-! Helper lemmas about the concrete store. -/

theorem valuesOf_append (a b : SysdbAttrs) (k : String) :
    valuesOf (a ++ b) k = valuesOf a k ++ valuesOf b k := by
  simp [valuesOf, List.filter_append]

theorem valuesOf_nil_of_no_key (w : SysdbAttrs) (k : String)
    (h : ∀ q ∈ w, q.1 ≠ k) : valuesOf w k = [] := by
  induction w with
  | nil => rfl
  | cons p t ih =>
    have hp : (p.1 == k) = false := by
      simpa using h p (List.mem_cons_self p t)
    have ht := ih (fun q hq => h q (List.mem_cons_of_mem p hq))
    simp only [valuesOf] at ht ⊢
    simp [List.filter_cons, hp, ht]

theorem valuesOf_filter_of_keeps_key (old : SysdbAttrs)
    (pred : String × Val → Bool) (k : String)
    (h : ∀ p, p.1 = k → pred p = true) :
    valuesOf (old.filter pred) k = valuesOf old k := by
  simp only [valuesOf, List.filter_filter]
  congr 1
  refine List.filter_congr ?_
  intro a _
  by_cases ha : (a.1 == k) = true
  · simp [ha, h a (by simpa using ha)]
  · simp only [Bool.not_eq_true] at ha
    simp [ha]

theorem valuesOf_mergeAttrs_of_no_key (old w : SysdbAttrs) (k : String)
    (h : ∀ q ∈ w, q.1 ≠ k) :
    valuesOf (mergeAttrs old w) k = valuesOf old k := by
  rw [mergeAttrs, valuesOf_append, valuesOf_nil_of_no_key w k h, List.append_nil]
  refine valuesOf_filter_of_keeps_key old _ k ?_
  intro p hp
  have hany : (w.any fun q => q.1 == p.1) = false := by
    rw [List.any_eq_false]
    intro q hq
    simp only [beq_iff_eq]
    intro e
    exact h q hq (by rw [e, hp])
  simp [hany]

theorem lookupRec_storeMerge_self (st : StoreState) (n : String)
    (w : SysdbAttrs) :
    lookupRec (storeMerge st n w) n =
      some
        (match lookupRec st n with
         | none => w
         | some a => mergeAttrs a w) := by
  induction st with
  | nil => simp [storeMerge, lookupRec]
  | cons p t ih =>
    by_cases hp : p.1 = n
    · simp [storeMerge, lookupRec, hp]
    · simp [storeMerge, lookupRec, hp, ih]

theorem lookupRec_storeMerge_other (st : StoreState) (n m : String)
    (w : SysdbAttrs) (h : m ≠ n) :
    lookupRec (storeMerge st n w) m = lookupRec st m := by
  induction st with
  | nil => simp [storeMerge, lookupRec, Ne.symm h]
  | cons p t ih =>
    by_cases hp : p.1 = n
    · have hpm : p.1 ≠ m := fun e => h (e.symm.trans hp)
      simp [storeMerge, lookupRec, hp, hpm, Ne.symm h]
    · by_cases hpm : p.1 = m
      · simp [storeMerge, lookupRec, hp, hpm, h]
      · simp [storeMerge, lookupRec, hp, hpm, ih]

theorem storedValues_storeMerge_frame (st : StoreState) (n : String)
    (w : SysdbAttrs) (m k : String) (hk : ∀ q ∈ w, q.1 ≠ k) :
    storedValues (storeMerge st n w) m k = storedValues st m k := by
  by_cases hm : m = n
  · subst hm
    rw [storedValues, lookupRec_storeMerge_self]
    cases hl : lookupRec st m with
    | none => simp [storedValues, hl, valuesOf_nil_of_no_key w k hk]
    | some a => simp [storedValues, hl, valuesOf_mergeAttrs_of_no_key a w k hk]
  · rw [storedValues, lookupRec_storeMerge_other st n m w hm, storedValues]

/-! Characterization of sysdb_get_ssh_host by the shape of the search
response. -/

theorem get_ssh_host_search_fail (ops : StoreOps) (name : String)
    (req : Option (List String)) (r : Nat) (l : List LdbMessage)
    (hs : ops.search (LdbFilter.exact SYSDB_NAME name) req = (r, l))
    (hr1 : r ≠ EOK) (hr2 : r ≠ ENOENT) :
    sysdb_get_ssh_host ops name req =
      (some ⟨r, none⟩, [Event.search (LdbFilter.exact SYSDB_NAME name)]) := by
  simp [sysdb_get_ssh_host, sysdb_search_ssh_hosts, hs, hr1, hr2]

theorem get_ssh_host_not_found (ops : StoreOps) (name : String)
    (req : Option (List String)) (l : List LdbMessage)
    (hs : ops.search (LdbFilter.exact SYSDB_NAME name) req = (ENOENT, l)) :
    sysdb_get_ssh_host ops name req =
      (some ⟨ENOENT, none⟩, [Event.search (LdbFilter.exact SYSDB_NAME name)]) := by
  simp [sysdb_get_ssh_host, sysdb_search_ssh_hosts, hs, EOK, ENOENT]

theorem get_ssh_host_ambiguous (ops : StoreOps) (name : String)
    (req : Option (List String)) (l : List LdbMessage)
    (hs : ops.search (LdbFilter.exact SYSDB_NAME name) req = (EOK, l))
    (hl : 2 ≤ l.length) :
    sysdb_get_ssh_host ops name req =
      (some ⟨EINVAL, none⟩, [Event.search (LdbFilter.exact SYSDB_NAME name)]) := by
  have hgt : l.length > 1 := hl
  simp [sysdb_get_ssh_host, sysdb_search_ssh_hosts, hs, EOK, ENOENT, hgt]

theorem get_ssh_host_unique (ops : StoreOps) (name : String)
    (req : Option (List String)) (m : LdbMessage)
    (hs : ops.search (LdbFilter.exact SYSDB_NAME name) req = (EOK, [m])) :
    sysdb_get_ssh_host ops name req =
      (some ⟨EOK, some m⟩, [Event.search (LdbFilter.exact SYSDB_NAME name)]) := by
  simp [sysdb_get_ssh_host, sysdb_search_ssh_hosts, hs, EOK, ENOENT]

theorem get_ssh_host_oob (ops : StoreOps) (name : String)
    (req : Option (List String))
    (hs : ops.search (LdbFilter.exact SYSDB_NAME name) req = (EOK, [])) :
    sysdb_get_ssh_host ops name req =
      (none, [Event.search (LdbFilter.exact SYSDB_NAME name)]) := by
  simp [sysdb_get_ssh_host, sysdb_search_ssh_hosts, hs, EOK, ENOENT]

/-! Characterization of sysdb_store_ssh_host by execution path. -/

/-- The attribute bag after the two unconditional injections (object-class
marker and name). -/
def injectedBase (attrs0 : SysdbAttrs) (name : String) : SysdbAttrs :=
  attrs0 ++
    [(SYSDB_OBJECTCLASS_ATTR, Val.str SYSDB_SSH_HOST_OC),
     (SYSDB_NAME, Val.str name)]

/-- The alias values carried by a searched message. -/
def msgAliases (m : LdbMessage) : List Val :=
  match ldb_msg_find_element m SYSDB_NAME_ALIAS with
  | none => []
  | some el => el.values

/-- The full bag the merge path writes: base injections, every pre-existing
alias value verbatim, the new alias once when absent, and last_update. -/
def mergeWriteBag (attrs0 : SysdbAttrs) (name al : String) (now : Nat)
    (oldVals : List Val) : SysdbAttrs :=
  injectedBase attrs0 name ++ oldVals.map (fun v => (SYSDB_NAME_ALIAS, v)) ++
    (if Val.str al ∈ oldVals then [] else [(SYSDB_NAME_ALIAS, Val.str al)]) ++
    [(SYSDB_LAST_UPDATE, Val.time now)]

/-- The outcome of upsert's merge path as a function of the write and commit
answers of the oracle. -/
def mergePathOut (ops : StoreOps) (name al : String) (now : Nat)
    (attrs0 : SysdbAttrs) (oldVals : List Val) : UpsertOut :=
  let a5 := mergeWriteBag attrs0 name al now oldVals
  let evs := [Event.txStart EOK, Event.search (LdbFilter.exact SYSDB_NAME name),
              Event.storeCustom name SSH_HOSTS_SUBDIR a5]
  if ops.store name a5 ≠ EOK then
    ⟨ops.store name a5, a5, evs ++ [Event.txCancel ops.txCancel]⟩
  else if ops.txCommit ≠ EOK then
    ⟨ops.txCommit, a5,
      evs ++ [Event.txCommit ops.txCommit, Event.txCancel ops.txCancel]⟩
  else ⟨EOK, a5, evs ++ [Event.txCommit ops.txCommit]⟩

theorem mergePathOut_attrs (ops : StoreOps) (name al : String) (now : Nat)
    (attrs0 : SysdbAttrs) (oldVals : List Val) :
    (mergePathOut ops name al now attrs0 oldVals).attrs =
      mergeWriteBag attrs0 name al now oldVals := by
  unfold mergePathOut
  by_cases hw : ops.store name (mergeWriteBag attrs0 name al now oldVals) ≠ EOK
  · simp [hw]
  · by_cases hc : ops.txCommit ≠ EOK <;> simp [hw, hc]

theorem upsert_txStart_fail (ops : StoreOps) (name al : String) (now : Nat)
    (attrs0 : SysdbAttrs) (h : ops.txStart ≠ EOK) :
    sysdb_store_ssh_host ops name (some al) now attrs0 =
      some ⟨ops.txStart, injectedBase attrs0 name,
        [Event.txStart ops.txStart]⟩ := by
  simp [sysdb_store_ssh_host, injectedBase, sysdb_attrs_add_string, h]

theorem upsert_search_fail (ops : StoreOps) (name al : String) (now : Nat)
    (attrs0 : SysdbAttrs) (r : Nat) (l : List LdbMessage)
    (hts : ops.txStart = EOK)
    (hs : ops.search (LdbFilter.exact SYSDB_NAME name)
        (some [SYSDB_NAME_ALIAS]) = (r, l))
    (hr1 : r ≠ EOK) (hr2 : r ≠ ENOENT) :
    sysdb_store_ssh_host ops name (some al) now attrs0 =
      some ⟨r, injectedBase attrs0 name,
        [Event.txStart EOK, Event.search (LdbFilter.exact SYSDB_NAME name),
         Event.txCancel ops.txCancel]⟩ := by
  have hget := get_ssh_host_search_fail ops name (some [SYSDB_NAME_ALIAS]) r l
    hs hr1 hr2
  simp [sysdb_store_ssh_host, injectedBase, sysdb_attrs_add_string, hts, hget,
    hr1, hr2]

theorem upsert_ambiguous (ops : StoreOps) (name al : String) (now : Nat)
    (attrs0 : SysdbAttrs) (l : List LdbMessage)
    (hts : ops.txStart = EOK)
    (hs : ops.search (LdbFilter.exact SYSDB_NAME name)
        (some [SYSDB_NAME_ALIAS]) = (EOK, l))
    (hl : 2 ≤ l.length) :
    sysdb_store_ssh_host ops name (some al) now attrs0 =
      some ⟨EINVAL, injectedBase attrs0 name,
        [Event.txStart EOK, Event.search (LdbFilter.exact SYSDB_NAME name),
         Event.txCancel ops.txCancel]⟩ := by
  have hget := get_ssh_host_ambiguous ops name (some [SYSDB_NAME_ALIAS]) l hs hl
  simp [sysdb_store_ssh_host, injectedBase, sysdb_attrs_add_string, hts, hget,
    EINVAL, EOK, ENOENT]

theorem upsert_oob (ops : StoreOps) (name al : String) (now : Nat)
    (attrs0 : SysdbAttrs)
    (hts : ops.txStart = EOK)
    (hs : ops.search (LdbFilter.exact SYSDB_NAME name)
        (some [SYSDB_NAME_ALIAS]) = (EOK, [])) :
    sysdb_store_ssh_host ops name (some al) now attrs0 = none := by
  have hget := get_ssh_host_oob ops name (some [SYSDB_NAME_ALIAS]) hs
  simp [sysdb_store_ssh_host, hts, hget]

theorem upsert_merge_not_found (ops : StoreOps) (name al : String) (now : Nat)
    (attrs0 : SysdbAttrs) (l : List LdbMessage)
    (hts : ops.txStart = EOK)
    (hs : ops.search (LdbFilter.exact SYSDB_NAME name)
        (some [SYSDB_NAME_ALIAS]) = (ENOENT, l)) :
    sysdb_store_ssh_host ops name (some al) now attrs0 =
      some (mergePathOut ops name al now attrs0 []) := by
  have hget := get_ssh_host_not_found ops name (some [SYSDB_NAME_ALIAS]) l hs
  simp [sysdb_store_ssh_host, hts, hget, EOK, ENOENT, mergePathOut,
    mergeWriteBag, injectedBase, sysdb_attrs_add_string, sysdb_attrs_add_time_t,
    sysdb_update_ssh_host, apply_ite Option.some]

theorem upsert_merge_found (ops : StoreOps) (name al : String) (now : Nat)
    (attrs0 : SysdbAttrs) (m : LdbMessage)
    (hts : ops.txStart = EOK)
    (hs : ops.search (LdbFilter.exact SYSDB_NAME name)
        (some [SYSDB_NAME_ALIAS]) = (EOK, [m])) :
    sysdb_store_ssh_host ops name (some al) now attrs0 =
      some (mergePathOut ops name al now attrs0 (msgAliases m)) := by
  have hget := get_ssh_host_unique ops name (some [SYSDB_NAME_ALIAS]) m hs
  rcases hel : ldb_msg_find_element m SYSDB_NAME_ALIAS with _ | el
  · simp [sysdb_store_ssh_host, hts, hget, EOK, ENOENT, mergePathOut,
      mergeWriteBag, injectedBase, msgAliases, hel, sysdb_attrs_add_string,
      sysdb_attrs_add_time_t, sysdb_update_ssh_host, apply_ite Option.some]
  · by_cases hmem : Val.str al ∈ el.values <;>
      simp [sysdb_store_ssh_host, hts, hget, EOK, ENOENT, mergePathOut,
        mergeWriteBag, injectedBase, msgAliases, hel, hmem,
        sysdb_attrs_add_string, sysdb_attrs_add_time_t, sysdb_update_ssh_host,
        apply_ite Option.some]

/-! Claim theorems. -/

/-- C5: an upsert with the alias absent performs no read and opens no
transaction - its whole trace is the single sysdb_store_custom write - and
that write's payload is exactly the caller-supplied attributes followed by the
injected object-class marker, name, and last_update = now, nothing else. -/
theorem upsert_no_alias_single_write (ops : StoreOps) (name : String)
    (now : Nat) (attrs0 : SysdbAttrs) :
    sysdb_store_ssh_host ops name none now attrs0 =
      some
        ⟨ops.store name
            (attrs0 ++
              [(SYSDB_OBJECTCLASS_ATTR, Val.str SYSDB_SSH_HOST_OC),
               (SYSDB_NAME, Val.str name),
               (SYSDB_LAST_UPDATE, Val.time now)]),
          attrs0 ++
            [(SYSDB_OBJECTCLASS_ATTR, Val.str SYSDB_SSH_HOST_OC),
             (SYSDB_NAME, Val.str name),
             (SYSDB_LAST_UPDATE, Val.time now)],
          [Event.storeCustom name SSH_HOSTS_SUBDIR
              (attrs0 ++
                [(SYSDB_OBJECTCLASS_ATTR, Val.str SYSDB_SSH_HOST_OC),
                 (SYSDB_NAME, Val.str name),
                 (SYSDB_LAST_UPDATE, Val.time now)])]⟩ := by
  simp [sysdb_store_ssh_host, sysdb_attrs_add_string, sysdb_attrs_add_time_t,
    sysdb_update_ssh_host]

/-- C6: bumpExpiry issues exactly one merge write, whose payload is exactly
the single attribute known_hosts_expire = now + ttl (its whole trace is that
one write: no transaction call, no search), and applying that write to any
concrete store leaves every record's values under every other attribute
(aliases and last_update included) unchanged. -/
theorem bumpExpiry_single_attribute_write (ops : StoreOps) (name : String)
    (now ttl : Nat) :
    sysdb_update_ssh_known_host_expire ops name now ttl =
      (ops.store name [(SYSDB_SSH_KNOWN_HOSTS_EXPIRE, Val.time (now + ttl))],
        [Event.storeCustom name SSH_HOSTS_SUBDIR
            [(SYSDB_SSH_KNOWN_HOSTS_EXPIRE, Val.time (now + ttl))]]) ∧
    ∀ st : StoreState, ∀ m k : String, k ≠ SYSDB_SSH_KNOWN_HOSTS_EXPIRE →
      storedValues
          (applyEvents st (sysdb_update_ssh_known_host_expire ops name now ttl).2)
          m k =
        storedValues st m k := by
  constructor
  · rfl
  · intro st m k hk
    have hpayload : ∀ q ∈ ([(SYSDB_SSH_KNOWN_HOSTS_EXPIRE, Val.time (now + ttl))] : SysdbAttrs),
        q.1 ≠ k := by
      intro q hq
      simp only [List.mem_singleton] at hq
      rw [hq]
      exact Ne.symm hk
    simp only [sysdb_update_ssh_known_host_expire, sysdb_update_ssh_host,
      sysdb_attrs_add_time_t, List.nil_append, applyEvents, List.foldl_cons,
      List.foldl_nil]
    exact storedValues_storeMerge_frame st name _ m k hpayload

/-- Witness for C6 at concrete inputs: bumping the expiry of host1 at
now = 1010 with ttl = 300 leaves the empty store's alias values for host1
unchanged. -/
theorem bumpExpiry_single_attribute_write_witness :
    storedValues
        (applyEvents []
          (sysdb_update_ssh_known_host_expire (opsOf []) "host1" 1010 300).2)
        "host1" SYSDB_NAME_ALIAS =
      storedValues [] "host1" SYSDB_NAME_ALIAS :=
  (bumpExpiry_single_attribute_write (opsOf []) "host1" 1010 300).2 []
    "host1" SYSDB_NAME_ALIAS (by decide)


/-- A message with one alias value, used to instantiate oracles. -/
def msg1 : LdbMessage := ⟨[⟨SYSDB_NAME_ALIAS, [Val.str "a0"]⟩]⟩

/-- An oracle whose name lookup finds nothing and whose write fails with Eio
(transactions succeed). -/
def opsWriteFail : StoreOps :=
  { txStart := EOK
    txCommit := EOK
    txCancel := EOK
    search := fun _ _ => (ENOENT, [])
    store := fun _ _ => Eio }

/-- An oracle whose name lookup finds nothing, whose write succeeds, and whose
commit fails with Eio. -/
def opsCommitFail : StoreOps :=
  { txStart := EOK
    txCommit := Eio
    txCancel := EOK
    search := fun _ _ => (ENOENT, [])
    store := fun _ _ => EOK }

/-- An oracle whose search always returns exactly one match. -/
def opsOneMatch : StoreOps :=
  { txStart := EOK
    txCommit := EOK
    txCancel := EOK
    search := fun _ _ => (EOK, [msg1])
    store := fun _ _ => EOK }

/-- An oracle whose search always returns two matches (a corrupted store). -/
def opsTwoMatches : StoreOps :=
  { txStart := EOK
    txCommit := EOK
    txCancel := EOK
    search := fun _ _ => (EOK, [msg1, msg1])
    store := fun _ _ => EOK }

/-- C9: sysdb_get_ssh_host reads the first element of the search result array
whenever the underlying search returns success (the out-of-bounds marker
arises exactly when a successful search carries zero records), so it is free
of the out-of-bounds access precisely under the precondition that a successful
search yields at least one record; under that precondition the out-of-range
access is unreachable. -/
theorem getByName_first_element_safe (ops : StoreOps) (name : String)
    (req : Option (List String)) :
    ((sysdb_get_ssh_host ops name req).1 = none ↔
        ops.search (LdbFilter.exact SYSDB_NAME name) req = (EOK, [])) ∧
      (((ops.search (LdbFilter.exact SYSDB_NAME name) req).1 = EOK →
          (ops.search (LdbFilter.exact SYSDB_NAME name) req).2 ≠ []) →
        (sysdb_get_ssh_host ops name req).1 ≠ none) := by
  have hiff : (sysdb_get_ssh_host ops name req).1 = none ↔
      ops.search (LdbFilter.exact SYSDB_NAME name) req = (EOK, []) := by
    rcases hs : ops.search (LdbFilter.exact SYSDB_NAME name) req with ⟨r, l⟩
    by_cases h1 : r = EOK
    · subst h1
      match l with
      | [] => simp [get_ssh_host_oob ops name req hs]
      | [m] => simp [get_ssh_host_unique ops name req m hs]
      | m1 :: m2 :: t =>
        have hl : 2 ≤ (m1 :: m2 :: t).length := by
          simp only [List.length_cons]
          omega
        simp [get_ssh_host_ambiguous ops name req (m1 :: m2 :: t) hs hl]
    · by_cases h2 : r = ENOENT
      · subst h2
        simp [get_ssh_host_not_found ops name req l hs, ENOENT, EOK]
      · simp [get_ssh_host_search_fail ops name req r l hs h1 h2, h1]
  refine ⟨hiff, ?_⟩
  intro hpre hnone
  have heq := hiff.mp hnone
  exact hpre (by rw [heq]) (by rw [heq])

/-- Witness for C9: under an oracle returning one record, the precondition
holds and the lookup result is defined. -/
theorem getByName_first_element_safe_witness :
    (sysdb_get_ssh_host opsOneMatch "host1" (some [SYSDB_NAME_ALIAS])).1 ≠
      none :=
  (getByName_first_element_safe opsOneMatch "host1"
      (some [SYSDB_NAME_ALIAS])).2 (by decide)

/-- C2: when the name lookup finds two or more records, sysdb_get_ssh_host
fails with the dedicated errno EINVAL (distinct from success and from the
not-found code), upsert with a present alias fails with the same EINVAL,
issues the lookup exactly once (no retry), and its trace leaves no transaction
open (the cancel closes it before the error returns). -/
theorem ambiguous_name_fails_einval_closes_tx (ops : StoreOps)
    (name al : String) (now : Nat) (attrs0 : SysdbAttrs)
    (l : List LdbMessage)
    (hts : ops.txStart = EOK)
    (hs : ops.search (LdbFilter.exact SYSDB_NAME name)
        (some [SYSDB_NAME_ALIAS]) = (EOK, l))
    (hl : 2 ≤ l.length) :
    sysdb_get_ssh_host ops name (some [SYSDB_NAME_ALIAS]) =
        (some ⟨EINVAL, none⟩,
          [Event.search (LdbFilter.exact SYSDB_NAME name)]) ∧
      sysdb_store_ssh_host ops name (some al) now attrs0 =
        some ⟨EINVAL, injectedBase attrs0 name,
          [Event.txStart EOK, Event.search (LdbFilter.exact SYSDB_NAME name),
           Event.txCancel ops.txCancel]⟩ ∧
      txOpenAfter
          [Event.txStart EOK, Event.search (LdbFilter.exact SYSDB_NAME name),
           Event.txCancel ops.txCancel] = false ∧
      ((([Event.txStart EOK,
          Event.search (LdbFilter.exact SYSDB_NAME name),
          Event.txCancel ops.txCancel] : List Event).filter isSearchEv).length
        = 1) ∧
      EINVAL ≠ EOK ∧ EINVAL ≠ ENOENT := by
  refine ⟨get_ssh_host_ambiguous ops name _ l hs hl,
    upsert_ambiguous ops name al now attrs0 l hts hs hl, ?_, ?_, by decide,
    by decide⟩
  · simp [txOpenAfter, isSearchEv, EOK]
  · simp [txOpenAfter, isSearchEv, EOK]

/-- Witness for C2: a corrupted oracle returning two matches. -/
theorem ambiguous_name_fails_einval_closes_tx_witness :
    sysdb_get_ssh_host opsTwoMatches "host1" (some [SYSDB_NAME_ALIAS]) =
        (some ⟨EINVAL, none⟩,
          [Event.search (LdbFilter.exact SYSDB_NAME "host1")]) ∧
      sysdb_store_ssh_host opsTwoMatches "host1" (some "a1") 1000 [] =
        some ⟨EINVAL, injectedBase [] "host1",
          [Event.txStart EOK,
           Event.search (LdbFilter.exact SYSDB_NAME "host1"),
           Event.txCancel opsTwoMatches.txCancel]⟩ ∧
      txOpenAfter
          [Event.txStart EOK,
           Event.search (LdbFilter.exact SYSDB_NAME "host1"),
           Event.txCancel opsTwoMatches.txCancel] = false ∧
      ((([Event.txStart EOK,
          Event.search (LdbFilter.exact SYSDB_NAME "host1"),
          Event.txCancel opsTwoMatches.txCancel] : List Event).filter
          isSearchEv).length = 1) ∧
      EINVAL ≠ EOK ∧ EINVAL ≠ ENOENT :=
  ambiguous_name_fails_einval_closes_tx opsTwoMatches "host1" "a1" 1000 []
    [msg1, msg1] rfl rfl (by decide)

/-- C7 counterexample: upsert returns the very same errno (Eio) whether the
store write failed (opsWriteFail) or the write succeeded and the commit failed
(opsCommitFail); the commit failure is therefore not distinguishable from a
write failure by the returned error. -/
theorem commit_failure_not_distinguishable :
    (sysdb_store_ssh_host opsWriteFail "host1" (some "a1") 1000 []).map
        UpsertOut.ret = some Eio ∧
      (sysdb_store_ssh_host opsCommitFail "host1" (some "a1") 1000 []).map
        UpsertOut.ret = some Eio ∧
      Eio ≠ EOK := by
  decide


/-- Helper: whenever the trace of a defined upsert execution contains a failed
commit, the execution took the merge path, the write succeeded, and the result
is exactly the commit errno with the trace ending in commit-then-cancel. -/
theorem upsert_commit_in_trace (ops : StoreOps) (name al : String) (now : Nat)
    (attrs0 : SysdbAttrs) (out : UpsertOut)
    (h : sysdb_store_ssh_host ops name (some al) now attrs0 = some out)
    (hc : ops.txCommit ≠ EOK)
    (hcm : Event.txCommit ops.txCommit ∈ out.events) :
    ∃ oldVals,
      ops.store name (mergeWriteBag attrs0 name al now oldVals) = EOK ∧
        out = ⟨ops.txCommit, mergeWriteBag attrs0 name al now oldVals,
          [Event.txStart EOK, Event.search (LdbFilter.exact SYSDB_NAME name),
           Event.storeCustom name SSH_HOSTS_SUBDIR
             (mergeWriteBag attrs0 name al now oldVals),
           Event.txCommit ops.txCommit, Event.txCancel ops.txCancel]⟩ := by
  by_cases hts : ops.txStart = EOK
  · rcases hsr : ops.search (LdbFilter.exact SYSDB_NAME name)
        (some [SYSDB_NAME_ALIAS]) with ⟨r, l⟩
    by_cases hre : r = ENOENT
    · subst hre
      rw [upsert_merge_not_found ops name al now attrs0 l hts hsr] at h
      have hout := Option.some.inj h
      by_cases hw : ops.store name (mergeWriteBag attrs0 name al now []) = EOK
      · refine ⟨[], hw, ?_⟩
        rw [← hout]
        simp [mergePathOut, hw, hc]
      · rw [← hout] at hcm
        simp [mergePathOut, hw] at hcm
    · by_cases hrk : r = EOK
      · subst hrk
        rcases l with _ | ⟨m, _ | ⟨m2, t⟩⟩
        · rw [upsert_oob ops name al now attrs0 hts hsr] at h
          cases h
        · rw [upsert_merge_found ops name al now attrs0 m hts hsr] at h
          have hout := Option.some.inj h
          by_cases hw : ops.store name
              (mergeWriteBag attrs0 name al now (msgAliases m)) = EOK
          · refine ⟨msgAliases m, hw, ?_⟩
            rw [← hout]
            simp [mergePathOut, hw, hc]
          · rw [← hout] at hcm
            simp [mergePathOut, hw] at hcm
        · have hl : 2 ≤ (m :: m2 :: t).length := by
            simp only [List.length_cons]
            omega
        
          rw [upsert_ambiguous ops name al now attrs0 _ hts hsr hl] at h
          rw [← Option.some.inj h] at hcm
          simp at hcm
      · rw [upsert_search_fail ops name al now attrs0 r l hts hsr hrk hre] at h
        rw [← Option.some.inj h] at hcm
        simp at hcm
  · rw [upsert_txStart_fail ops name al now attrs0 hts] at h
    rw [← Option.some.inj h] at hcm
    simp at hcm

/-- C8: in every defined execution of upsert with a present alias whose trace
shows a failed commit, transactionCancel is additionally invoked on the
transaction before the commit error is returned: the trace ends with the
failed commit immediately followed by the cancel. -/
theorem commit_failure_then_cancel (ops : StoreOps) (name al : String)
    (now : Nat) (attrs0 : SysdbAttrs) (out : UpsertOut)
    (h : sysdb_store_ssh_host ops name (some al) now attrs0 = some out)
    (hc : ops.txCommit ≠ EOK)
    (hcm : Event.txCommit ops.txCommit ∈ out.events) :
    ∃ pre, out.events =
      pre ++ [Event.txCommit ops.txCommit, Event.txCancel ops.txCancel] := by
  obtain ⟨ov, _, hout⟩ :=
    upsert_commit_in_trace ops name al now attrs0 out h hc hcm
  refine ⟨[Event.txStart EOK, Event.search (LdbFilter.exact SYSDB_NAME name),
    Event.storeCustom name SSH_HOSTS_SUBDIR
      (mergeWriteBag attrs0 name al now ov)], ?_⟩
  rw [hout]
  rfl

/-- The output of upsert against opsCommitFail: the write went through, the
commit failed with Eio, the cancel followed. -/
def outCommitFail : UpsertOut :=
  ⟨Eio, mergeWriteBag [] "host1" "a1" 1000 [],
   [Event.txStart EOK, Event.search (LdbFilter.exact SYSDB_NAME "host1"),
    Event.storeCustom "host1" SSH_HOSTS_SUBDIR
      (mergeWriteBag [] "host1" "a1" 1000 []),
    Event.txCommit Eio, Event.txCancel EOK]⟩

/-- Witness for C8 at a concrete failing-commit oracle. -/
theorem commit_failure_then_cancel_witness :
    ∃ pre, outCommitFail.events =
      pre ++ [Event.txCommit opsCommitFail.txCommit,
              Event.txCancel opsCommitFail.txCancel] :=
  commit_failure_then_cancel opsCommitFail "host1" "a1" 1000 [] outCommitFail
    (by decide) (by decide) (by decide)

/-- C7 amended: in every defined execution of upsert with a present alias in
which the store write succeeds but the commit fails, upsert returns an error -
but that error is exactly the errno the commit call reported, with no
distinct commit-failure kind attached to it. -/
theorem commit_failure_returns_commit_errno (ops : StoreOps) (name al : String)
    (now : Nat) (attrs0 : SysdbAttrs) (out : UpsertOut)
    (h : sysdb_store_ssh_host ops name (some al) now attrs0 = some out)
    (hc : ops.txCommit ≠ EOK)
    (hcm : Event.txCommit ops.txCommit ∈ out.events) :
    out.ret = ops.txCommit ∧ out.ret ≠ EOK := by
  obtain ⟨ov, _, hout⟩ :=
    upsert_commit_in_trace ops name al now attrs0 out h hc hcm
  rw [hout]
  exact ⟨rfl, hc⟩

/-- Witness for the amended C7 at a concrete failing-commit oracle. -/
theorem commit_failure_returns_commit_errno_witness :
    outCommitFail.ret = opsCommitFail.txCommit ∧ outCommitFail.ret ≠ EOK :=
  commit_failure_returns_commit_errno opsCommitFail "host1" "a1" 1000 []
    outCommitFail (by decide) (by decide) (by decide)

/-- C10: upsert mutates the caller-supplied bag in place by appending: every
defined execution leaves the bag equal to the original followed by the
object-class marker and the name and then path-dependent further additions
(pre-existing aliases, the new alias when absent from them, last_update); with
the alias absent the final bag is exactly base plus last_update; and on an
error partway (transaction start failure) the bag retains the additions made
before the failure - it is not restored to the caller's original. -/
theorem upsert_appends_to_caller_bag (ops : StoreOps) (name : String)
    (alias? : Option String) (now : Nat) (attrs0 : SysdbAttrs)
    (out : UpsertOut)
    (h : sysdb_store_ssh_host ops name alias? now attrs0 = some out) :
    (∃ rest, out.attrs = injectedBase attrs0 name ++ rest) ∧
      (alias? = none →
        out.attrs =
          injectedBase attrs0 name ++ [(SYSDB_LAST_UPDATE, Val.time now)]) ∧
      (∀ al, alias? = some al → ops.txStart ≠ EOK →
        out.ret = ops.txStart ∧ out.attrs = injectedBase attrs0 name) := by
  cases alias? with
  | none =>
    rw [upsert_no_alias_single_write ops name now attrs0] at h
    have hout := Option.some.inj h
    have hattrs : out.attrs =
        injectedBase attrs0 name ++ [(SYSDB_LAST_UPDATE, Val.time now)] := by
      rw [← hout]
      simp [injectedBase]
    exact ⟨⟨[(SYSDB_LAST_UPDATE, Val.time now)], hattrs⟩, fun _ => hattrs,
      fun al hal => Option.noConfusion hal⟩
  | some al =>
    by_cases hts : ops.txStart = EOK
    · have hthird : ∀ al2, some al = some al2 → ops.txStart ≠ EOK →
          out.ret = ops.txStart ∧ out.attrs = injectedBase attrs0 name :=
        fun al2 _ hts2 => absurd hts hts2
      rcases hsr : ops.search (LdbFilter.exact SYSDB_NAME name)
          (some [SYSDB_NAME_ALIAS]) with ⟨r, l⟩
      by_cases hre : r = ENOENT
      · subst hre
        rw [upsert_merge_not_found ops name al now attrs0 l hts hsr] at h
        have hout := Option.some.inj h
        refine ⟨⟨[] ++
          (if Val.str al ∈ ([] : List Val) then []
           else [(SYSDB_NAME_ALIAS, Val.str al)]) ++
          [(SYSDB_LAST_UPDATE, Val.time now)], ?_⟩,
          fun hnone => Option.noConfusion hnone, hthird⟩
        rw [← hout, mergePathOut_attrs, mergeWriteBag]
        simp [List.append_assoc]
      · by_cases hrk : r = EOK
        · subst hrk
          rcases l with _ | ⟨m, _ | ⟨m2, t⟩⟩
          · rw [upsert_oob ops name al now attrs0 hts hsr] at h
            cases h
          · rw [upsert_merge_found ops name al now attrs0 m hts hsr] at h
            have hout := Option.some.inj h
            refine ⟨⟨(msgAliases m).map (fun v => (SYSDB_NAME_ALIAS, v)) ++
              (if Val.str al ∈ msgAliases m then []
               else [(SYSDB_NAME_ALIAS, Val.str al)]) ++
              [(SYSDB_LAST_UPDATE, Val.time now)], ?_⟩,
              fun hnone => Option.noConfusion hnone, hthird⟩
            rw [← hout, mergePathOut_attrs, mergeWriteBag]
            simp [List.append_assoc]
          · have hl : 2 ≤ (m :: m2 :: t).length := by
              simp only [List.length_cons]
              omega
            rw [upsert_ambiguous ops name al now attrs0 _ hts hsr hl] at h
            have hout := Option.some.inj h
            refine ⟨⟨[], ?_⟩, fun hnone => Option.noConfusion hnone, hthird⟩
            rw [← hout]
            simp
        · rw [upsert_search_fail ops name al now attrs0 r l hts hsr hrk hre]
            at h
          have hout := Option.some.inj h
          refine ⟨⟨[], ?_⟩, fun hnone => Option.noConfusion hnone, hthird⟩
          rw [← hout]
          simp
    · rw [upsert_txStart_fail ops name al now attrs0 hts] at h
      have hout := Option.some.inj h
      refine ⟨⟨[], by rw [← hout]; simp⟩,
        fun hnone => Option.noConfusion hnone, fun al2 _ _ => ?_⟩
      rw [← hout]
      exact ⟨rfl, rfl⟩

/-- The output of upsert against opsWriteFail: the merge path was taken, the
write failed with Eio, the cancel followed. -/
def outWriteFail : UpsertOut :=
  ⟨Eio, mergeWriteBag [] "host1" "a1" 1000 [],
   [Event.txStart EOK, Event.search (LdbFilter.exact SYSDB_NAME "host1"),
    Event.storeCustom "host1" SSH_HOSTS_SUBDIR
      (mergeWriteBag [] "host1" "a1" 1000 []),
    Event.txCancel EOK]⟩

/-- Witness for C10 at a concrete erroring execution. -/
theorem upsert_appends_to_caller_bag_witness :
    (∃ rest, outWriteFail.attrs = injectedBase [] "host1" ++ rest) ∧
      (some "a1" = none →
        outWriteFail.attrs =
          injectedBase [] "host1" ++ [(SYSDB_LAST_UPDATE, Val.time 1000)]) ∧
      (∀ al, some "a1" = some al → opsWriteFail.txStart ≠ EOK →
        outWriteFail.ret = opsWriteFail.txStart ∧
          outWriteFail.attrs = injectedBase [] "host1") :=
  upsert_appends_to_caller_bag opsWriteFail "host1" (some "a1") 1000 []
    outWriteFail (by decide)


theorem valuesOf_map_self (vs : List Val) (k : String) :
    valuesOf (vs.map fun v => (k, v)) k = vs := by
  induction vs with
  | nil => rfl
  | cons v t ih =>
    simp only [valuesOf] at ih ⊢
    simp [List.filter_cons, ih]

theorem mergeWriteBag_aliases (attrs0 : SysdbAttrs) (name al : String)
    (now : Nat) (oldVals : List Val)
    (hclean : valuesOf attrs0 SYSDB_NAME_ALIAS = []) :
    valuesOf (mergeWriteBag attrs0 name al now oldVals) SYSDB_NAME_ALIAS =
      oldVals ++ (if Val.str al ∈ oldVals then [] else [Val.str al]) := by
  have h1 : valuesOf
      ([(SYSDB_OBJECTCLASS_ATTR, Val.str SYSDB_SSH_HOST_OC),
        (SYSDB_NAME, Val.str name)] : SysdbAttrs) SYSDB_NAME_ALIAS = [] := by
    simp [valuesOf, List.filter_cons, SYSDB_OBJECTCLASS_ATTR, SYSDB_NAME,
      SYSDB_NAME_ALIAS]
  have h2 := valuesOf_map_self oldVals SYSDB_NAME_ALIAS
  have h4 : valuesOf ([(SYSDB_LAST_UPDATE, Val.time now)] : SysdbAttrs)
      SYSDB_NAME_ALIAS = [] := by
    simp [valuesOf, List.filter_cons, SYSDB_LAST_UPDATE, SYSDB_NAME_ALIAS]
  have halias : valuesOf ([(SYSDB_NAME_ALIAS, Val.str al)] : SysdbAttrs)
      SYSDB_NAME_ALIAS = [Val.str al] := by
    simp [valuesOf, List.filter_cons]
  by_cases hmem : Val.str al ∈ oldVals
  · rw [mergeWriteBag, if_pos hmem, injectedBase, valuesOf_append,
      valuesOf_append, valuesOf_append, valuesOf_append, hclean, h1, h2, h4]
    simp [hmem, valuesOf]
  · rw [mergeWriteBag, if_neg hmem, injectedBase, valuesOf_append,
      valuesOf_append, valuesOf_append, valuesOf_append, hclean, h1, h2, h4,
      halias]
    simp [hmem]

theorem preAliasesOf_not_found (ops : StoreOps) (name : String)
    (l : List LdbMessage)
    (hs : ops.search (LdbFilter.exact SYSDB_NAME name)
        (some [SYSDB_NAME_ALIAS]) = (ENOENT, l)) :
    preAliasesOf ops name = [] := by
  have hget := get_ssh_host_not_found ops name (some [SYSDB_NAME_ALIAS]) l hs
  simp [preAliasesOf, hget]

theorem preAliasesOf_found (ops : StoreOps) (name : String) (m : LdbMessage)
    (hs : ops.search (LdbFilter.exact SYSDB_NAME name)
        (some [SYSDB_NAME_ALIAS]) = (EOK, [m])) :
    preAliasesOf ops name = msgAliases m := by
  have hget := get_ssh_host_unique ops name (some [SYSDB_NAME_ALIAS]) m hs
  rcases hel : ldb_msg_find_element m SYSDB_NAME_ALIAS with _ | el <;>
    simp [preAliasesOf, hget, msgAliases, hel]

theorem mergedAliases_of_pre (ops : StoreOps) (name al : String)
    (oldVals : List Val) (hpre : preAliasesOf ops name = oldVals) :
    oldVals ++ (if Val.str al ∈ oldVals then [] else [Val.str al]) =
      mergedAliases ops name al := by
  rw [mergedAliases, hpre]
  by_cases hmem : Val.str al ∈ oldVals <;> simp [hmem]

/-- C3: in every defined execution of upsert with a present alias that opened
its transaction and returns an error, the trace ends with the transaction
cancel (the transaction is closed before the error returns), and every write
the trace contains targets the host's own record and carries the fully merged
alias value list - all pre-existing aliases plus the new one when absent - so
the store is never handed a half-merged alias set. -/
theorem upsert_failure_cancels_no_partial_merge (ops : StoreOps)
    (name al : String) (now : Nat) (attrs0 : SysdbAttrs) (out : UpsertOut)
    (hclean : valuesOf attrs0 SYSDB_NAME_ALIAS = [])
    (hts : ops.txStart = EOK)
    (h : sysdb_store_ssh_host ops name (some al) now attrs0 = some out)
    (herr : out.ret ≠ EOK) :
    out.events.getLast? = some (Event.txCancel ops.txCancel) ∧
      txOpenAfter out.events = false ∧
      ∀ n sub w, Event.storeCustom n sub w ∈ out.events →
        n = name ∧ valuesOf w SYSDB_NAME_ALIAS = mergedAliases ops name al := by
  rcases hsr : ops.search (LdbFilter.exact SYSDB_NAME name)
      (some [SYSDB_NAME_ALIAS]) with ⟨r, l⟩
  by_cases hre : r = ENOENT
  · subst hre
    rw [upsert_merge_not_found ops name al now attrs0 l hts hsr] at h
    have hout := (Option.some.inj h).symm
    have hw0 : valuesOf (mergeWriteBag attrs0 name al now [])
        SYSDB_NAME_ALIAS = mergedAliases ops name al := by
      rw [mergeWriteBag_aliases attrs0 name al now [] hclean]
      exact mergedAliases_of_pre ops name al []
        (preAliasesOf_not_found ops name l hsr)
    by_cases hw : ops.store name (mergeWriteBag attrs0 name al now []) = EOK
    · by_cases hcmt : ops.txCommit = EOK
      · rw [hout] at herr
        simp [mergePathOut, hw, hcmt] at herr
      · have hshape : mergePathOut ops name al now attrs0 [] =
            ⟨ops.txCommit, mergeWriteBag attrs0 name al now [],
             [Event.txStart EOK,
              Event.search (LdbFilter.exact SYSDB_NAME name),
              Event.storeCustom name SSH_HOSTS_SUBDIR
                (mergeWriteBag attrs0 name al now []),
              Event.txCommit ops.txCommit,
              Event.txCancel ops.txCancel]⟩ := by
          simp [mergePathOut, hw, hcmt]
        rw [hout, hshape]
        refine ⟨rfl, rfl, ?_⟩
        intro n sub w hmem
        simp only [List.mem_cons, List.not_mem_nil, or_false, reduceCtorEq,
          false_or, Event.storeCustom.injEq] at hmem
        obtain ⟨rfl, -, rfl⟩ := hmem
        exact ⟨rfl, hw0⟩
    · have hshape : mergePathOut ops name al now attrs0 [] =
          ⟨ops.store name (mergeWriteBag attrs0 name al now []),
           mergeWriteBag attrs0 name al now [],
           [Event.txStart EOK, Event.search (LdbFilter.exact SYSDB_NAME name),
            Event.storeCustom name SSH_HOSTS_SUBDIR
              (mergeWriteBag attrs0 name al now []),
            Event.txCancel ops.txCancel]⟩ := by
        simp [mergePathOut, hw]
      rw [hout, hshape]
      refine ⟨rfl, rfl, ?_⟩
      intro n sub w hmem
      simp only [List.mem_cons, List.not_mem_nil, or_false, reduceCtorEq,
        false_or, Event.storeCustom.injEq] at hmem
      obtain ⟨rfl, -, rfl⟩ := hmem
      exact ⟨rfl, hw0⟩
  · by_cases hrk : r = EOK
    · subst hrk
      rcases l with _ | ⟨m, _ | ⟨m2, t⟩⟩
      · rw [upsert_oob ops name al now attrs0 hts hsr] at h
        cases h
      · rw [upsert_merge_found ops name al now attrs0 m hts hsr] at h
        have hout := (Option.some.inj h).symm
        have hw0 : valuesOf (mergeWriteBag attrs0 name al now (msgAliases m))
            SYSDB_NAME_ALIAS = mergedAliases ops name al := by
          rw [mergeWriteBag_aliases attrs0 name al now (msgAliases m) hclean]
          exact mergedAliases_of_pre ops name al (msgAliases m)
            (preAliasesOf_found ops name m hsr)
        by_cases hw : ops.store name
            (mergeWriteBag attrs0 name al now (msgAliases m)) = EOK
        · by_cases hcmt : ops.txCommit = EOK
          · rw [hout] at herr
            simp [mergePathOut, hw, hcmt] at herr
          · have hshape : mergePathOut ops name al now attrs0 (msgAliases m) =
                ⟨ops.txCommit, mergeWriteBag attrs0 name al now (msgAliases m),
                 [Event.txStart EOK,
                  Event.search (LdbFilter.exact SYSDB_NAME name),
                  Event.storeCustom name SSH_HOSTS_SUBDIR
                    (mergeWriteBag attrs0 name al now (msgAliases m)),
                  Event.txCommit ops.txCommit,
                  Event.txCancel ops.txCancel]⟩ := by
              simp [mergePathOut, hw, hcmt]
            rw [hout, hshape]
            refine ⟨rfl, rfl, ?_⟩
            intro n sub w hmem
            simp only [List.mem_cons, List.not_mem_nil, or_false,
              reduceCtorEq, false_or, Event.storeCustom.injEq] at hmem
            obtain ⟨rfl, -, rfl⟩ := hmem
            exact ⟨rfl, hw0⟩
        · have hshape : mergePathOut ops name al now attrs0 (msgAliases m) =
              ⟨ops.store name (mergeWriteBag attrs0 name al now (msgAliases m)),
               mergeWriteBag attrs0 name al now (msgAliases m),
               [Event.txStart EOK,
                Event.search (LdbFilter.exact SYSDB_NAME name),
                Event.storeCustom name SSH_HOSTS_SUBDIR
                  (mergeWriteBag attrs0 name al now (msgAliases m)),
                Event.txCancel ops.txCancel]⟩ := by
            simp [mergePathOut, hw]
          rw [hout, hshape]
          refine ⟨rfl, rfl, ?_⟩
          intro n sub w hmem
          simp only [List.mem_cons, List.not_mem_nil, or_false, reduceCtorEq,
            false_or, Event.storeCustom.injEq] at hmem
          obtain ⟨rfl, -, rfl⟩ := hmem
          exact ⟨rfl, hw0⟩
      · have hl : 2 ≤ (m :: m2 :: t).length := by
          simp only [List.length_cons]
          omega
        rw [upsert_ambiguous ops name al now attrs0 _ hts hsr hl] at h
        rw [(Option.some.inj h).symm]
        refine ⟨rfl, rfl, ?_⟩
        intro n sub w hmem
        simp at hmem
    · rw [upsert_search_fail ops name al now attrs0 r l hts hsr hrk hre] at h
      rw [(Option.some.inj h).symm]
      refine ⟨rfl, rfl, ?_⟩
      intro n sub w hmem
      simp at hmem

/-- Witness for C3 at a concrete failing-write oracle. -/
theorem upsert_failure_cancels_no_partial_merge_witness :
    outWriteFail.events.getLast? =
        some (Event.txCancel opsWriteFail.txCancel) ∧
      txOpenAfter outWriteFail.events = false ∧
      ∀ n sub w, Event.storeCustom n sub w ∈ outWriteFail.events →
        n = "host1" ∧
          valuesOf w SYSDB_NAME_ALIAS = mergedAliases opsWriteFail "host1" "a1" :=
  upsert_failure_cancels_no_partial_merge opsWriteFail "host1" "a1" 1000 []
    outWriteFail (by decide) (by decide) (by decide) (by decide)


theorem valuesOf_mergeAttrs_of_key (old w : SysdbAttrs) (k : String)
    (hk : (w.any fun q => q.1 == k) = true) :
    valuesOf (mergeAttrs old w) k = valuesOf w k := by
  rw [mergeAttrs, valuesOf_append]
  suffices hnil :
      valuesOf (old.filter fun p => !(w.any fun q => q.1 == p.1)) k = [] by
    rw [hnil, List.nil_append]
  apply valuesOf_nil_of_no_key
  intro q hq
  rcases List.mem_filter.mp hq with ⟨_, hqpred⟩
  intro e
  rw [e] at hqpred
  simp [hk] at hqpred

theorem storedValues_storeMerge_key (st : StoreState) (n : String)
    (w : SysdbAttrs) (k : String)
    (hk : (w.any fun q => q.1 == k) = true) :
    storedValues (storeMerge st n w) n k = valuesOf w k := by
  rw [storedValues, lookupRec_storeMerge_self]
  cases hl : lookupRec st n with
  | none => simp [hl]
  | some a => simp [hl, valuesOf_mergeAttrs_of_key a w k hk]

theorem any_key_of_valuesOf_ne (w : SysdbAttrs) (k : String)
    (h : valuesOf w k ≠ []) : (w.any fun q => q.1 == k) = true := by
  by_contra hany
  rw [Bool.not_eq_true] at hany
  apply h
  apply valuesOf_nil_of_no_key
  intro q hq e
  rw [List.any_eq_false] at hany
  have hq2 := hany q hq
  simp [e] at hq2

theorem mergeWriteBag_lastUpdate (attrs0 : SysdbAttrs) (name al : String)
    (now : Nat) (oldVals : List Val)
    (hc : valuesOf attrs0 SYSDB_LAST_UPDATE = []) :
    valuesOf (mergeWriteBag attrs0 name al now oldVals) SYSDB_LAST_UPDATE =
      [Val.time now] := by
  have h1 : valuesOf
      ([(SYSDB_OBJECTCLASS_ATTR, Val.str SYSDB_SSH_HOST_OC),
        (SYSDB_NAME, Val.str name)] : SysdbAttrs) SYSDB_LAST_UPDATE = [] := by
    simp [valuesOf, List.filter_cons, SYSDB_OBJECTCLASS_ATTR, SYSDB_NAME,
      SYSDB_LAST_UPDATE]
  have h2 : valuesOf (oldVals.map fun v => (SYSDB_NAME_ALIAS, v))
      SYSDB_LAST_UPDATE = [] := by
    apply valuesOf_nil_of_no_key
    intro q hq
    rcases List.mem_map.mp hq with ⟨v, _, rfl⟩
    show SYSDB_NAME_ALIAS ≠ SYSDB_LAST_UPDATE
    decide
  have h4 : valuesOf ([(SYSDB_LAST_UPDATE, Val.time now)] : SysdbAttrs)
      SYSDB_LAST_UPDATE = [Val.time now] := by
    simp [valuesOf, List.filter_cons]
  have halias : valuesOf ([(SYSDB_NAME_ALIAS, Val.str al)] : SysdbAttrs)
      SYSDB_LAST_UPDATE = [] := by
    simp [valuesOf, List.filter_cons, SYSDB_NAME_ALIAS, SYSDB_LAST_UPDATE]
  by_cases hmem : Val.str al ∈ oldVals
  · rw [mergeWriteBag, if_pos hmem, injectedBase, valuesOf_append,
      valuesOf_append, valuesOf_append, valuesOf_append, hc, h1, h2, h4]
    simp [valuesOf]
  · rw [mergeWriteBag, if_neg hmem, injectedBase, valuesOf_append,
      valuesOf_append, valuesOf_append, valuesOf_append, hc, h1, h2, h4,
      halias]
    simp

theorem mergeWriteBag_oc (attrs0 : SysdbAttrs) (name al : String)
    (now : Nat) (oldVals : List Val)
    (hc : valuesOf attrs0 SYSDB_OBJECTCLASS_ATTR = []) :
    valuesOf (mergeWriteBag attrs0 name al now oldVals)
        SYSDB_OBJECTCLASS_ATTR = [Val.str SYSDB_SSH_HOST_OC] := by
  have h1 : valuesOf
      ([(SYSDB_OBJECTCLASS_ATTR, Val.str SYSDB_SSH_HOST_OC),
        (SYSDB_NAME, Val.str name)] : SysdbAttrs) SYSDB_OBJECTCLASS_ATTR =
      [Val.str SYSDB_SSH_HOST_OC] := by
    simp [valuesOf, List.filter_cons, SYSDB_OBJECTCLASS_ATTR, SYSDB_NAME]
  have h2 : valuesOf (oldVals.map fun v => (SYSDB_NAME_ALIAS, v))
      SYSDB_OBJECTCLASS_ATTR = [] := by
    apply valuesOf_nil_of_no_key
    intro q hq
    rcases List.mem_map.mp hq with ⟨v, _, rfl⟩
    show SYSDB_NAME_ALIAS ≠ SYSDB_OBJECTCLASS_ATTR
    decide
  have h4 : valuesOf ([(SYSDB_LAST_UPDATE, Val.time now)] : SysdbAttrs)
      SYSDB_OBJECTCLASS_ATTR = [] := by
    simp [valuesOf, List.filter_cons, SYSDB_LAST_UPDATE,
      SYSDB_OBJECTCLASS_ATTR]
  have halias : valuesOf ([(SYSDB_NAME_ALIAS, Val.str al)] : SysdbAttrs)
      SYSDB_OBJECTCLASS_ATTR = [] := by
    simp [valuesOf, List.filter_cons, SYSDB_NAME_ALIAS,
      SYSDB_OBJECTCLASS_ATTR]
  by_cases hmem : Val.str al ∈ oldVals
  · rw [mergeWriteBag, if_pos hmem, injectedBase, valuesOf_append,
      valuesOf_append, valuesOf_append, valuesOf_append, hc, h1, h2, h4]
    simp [valuesOf]
  · rw [mergeWriteBag, if_neg hmem, injectedBase, valuesOf_append,
      valuesOf_append, valuesOf_append, valuesOf_append, hc, h1, h2, h4,
      halias]
    simp

theorem attrsMatch_exact_iff (a : SysdbAttrs) (key v : String) :
    attrsMatch (LdbFilter.exact key v) a = true ↔
      Val.str v ∈ valuesOf a key := by
  constructor
  · intro h
    rcases List.any_eq_true.mp h with ⟨p, hp, hcond⟩
    rw [Bool.and_eq_true, beq_iff_eq, beq_iff_eq] at hcond
    unfold valuesOf
    exact List.mem_map.mpr
      ⟨p, List.mem_filter.mpr ⟨hp, by simp [hcond.1]⟩, hcond.2⟩
  · intro h
    unfold valuesOf at h
    rcases List.mem_map.mp h with ⟨p, hpf, hp2⟩
    rcases List.mem_filter.mp hpf with ⟨hpa, hpk⟩
    refine List.any_eq_true.mpr ⟨p, hpa, ?_⟩
    rw [Bool.and_eq_true]
    exact ⟨hpk, by simp [hp2]⟩

theorem attrsMatch_exact_of_name (a : SysdbAttrs) (key0 n : String)
    (hrec : valuesOf a SYSDB_NAME = [Val.str key0]) :
    attrsMatch (LdbFilter.exact SYSDB_NAME n) a = (key0 == n) := by
  by_cases he : key0 = n
  · subst he
    rw [beq_self_eq_true]
    exact (attrsMatch_exact_iff a SYSDB_NAME key0).mpr
      (by rw [hrec]; exact List.mem_singleton.mpr rfl)
  · have hne : ((key0 == n) : Bool) = false := by simpa using he
    rw [hne]
    rw [← Bool.not_eq_true]
    intro hmatch
    have := (attrsMatch_exact_iff a SYSDB_NAME n).mp hmatch
    rw [hrec] at this
    rcases List.mem_singleton.mp this with h
    exact he (Val.str.inj h).symm

theorem search_custom_exact_name (st : StoreState) (n : String)
    (req : Option (List String)) (hwf : Wellformed st) :
    sysdb_search_custom st (LdbFilter.exact SYSDB_NAME n) req =
      (match lookupRec st n with
       | none => (ENOENT, [])
       | some a => (EOK, [attrsToMsg req a])) := by
  induction st with
  | nil => simp [sysdb_search_custom, lookupRec]
  | cons p t ih =>
    obtain ⟨hpw, hname⟩ := hwf
    have hph : valuesOf p.2 SYSDB_NAME = [Val.str p.1] :=
      hname p (List.mem_cons_self p t)
    have hdist : ∀ q ∈ t, p.1 ≠ q.1 := (List.pairwise_cons.mp hpw).1
    have hwt : Wellformed t :=
      ⟨(List.pairwise_cons.mp hpw).2,
       fun q hq => hname q (List.mem_cons_of_mem p hq)⟩
    have hmatch : attrsMatch (LdbFilter.exact SYSDB_NAME n) p.2 =
        (p.1 == n) := attrsMatch_exact_of_name p.2 p.1 n hph
    by_cases hpn : p.1 = n
    · have htnil :
          t.filter (fun q => attrsMatch (LdbFilter.exact SYSDB_NAME n) q.2)
            = [] := by
        rw [List.filter_eq_nil_iff]
        intro q hq
        rw [attrsMatch_exact_of_name q.2 q.1 n (hwt.2 q hq)]
        have hq1 : q.1 ≠ n := fun e => hdist q hq (hpn.trans e.symm)
        simp [hq1]
      simp [sysdb_search_custom, lookupRec, hpn, hmatch, List.filter_cons,
        htnil]
    · have hpf : ((p.1 == n) : Bool) = false := by simpa using hpn
      have hrest := ih hwt
      simp only [sysdb_search_custom] at hrest ⊢
      rw [List.filter_cons]
      simp only [lookupRec, hpn, hmatch, hpf, Bool.false_eq_true, if_false]
      exact hrest


theorem msgAliases_attrsToMsg (a : SysdbAttrs) :
    msgAliases (attrsToMsg (some [SYSDB_NAME_ALIAS]) a) =
      valuesOf a SYSDB_NAME_ALIAS := by
  unfold msgAliases attrsToMsg ldb_msg_find_element
  cases hv : valuesOf a SYSDB_NAME_ALIAS with
  | nil => simp [hv]
  | cons v vs => simp [hv, List.find?]

/-- C1: on a wellformed store, for every host name and present alias, a full
upsert succeeds and the stored record afterwards carries exactly the
pre-existing alias value list when the alias was already present (idempotent
re-add), and the pre-existing list extended by the alias otherwise (so exactly
the singleton alias when no record existed); in every case the stored record
carries last_update = now and the object-class marker as its sole values for
those attributes. -/
theorem upsert_merges_alias_set (st : StoreState) (name al : String)
    (now : Nat) (attrs0 : SysdbAttrs)
    (hwf : Wellformed st)
    (hcAlias : valuesOf attrs0 SYSDB_NAME_ALIAS = [])
    (hcLast : valuesOf attrs0 SYSDB_LAST_UPDATE = [])
    (hcOC : valuesOf attrs0 SYSDB_OBJECTCLASS_ATTR = []) :
    ∃ out, sysdb_store_ssh_host (opsOf st) name (some al) now attrs0 =
        some out ∧
      out.ret = EOK ∧
      storedValues (applyEvents st out.events) name SYSDB_NAME_ALIAS =
        (if Val.str al ∈ storedAliases st name then storedAliases st name
         else storedAliases st name ++ [Val.str al]) ∧
      storedValues (applyEvents st out.events) name SYSDB_LAST_UPDATE =
        [Val.time now] ∧
      storedValues (applyEvents st out.events) name SYSDB_OBJECTCLASS_ATTR =
        [Val.str SYSDB_SSH_HOST_OC] := by
  have hsc := search_custom_exact_name st name (some [SYSDB_NAME_ALIAS]) hwf
  cases hl : lookupRec st name with
  | none =>
    have hsr : (opsOf st).search (LdbFilter.exact SYSDB_NAME name)
        (some [SYSDB_NAME_ALIAS]) = (ENOENT, []) := by
      show sysdb_search_custom st _ _ = _
      rw [hsc, hl]
    have hup := upsert_merge_not_found (opsOf st) name al now attrs0 [] rfl hsr
    have hshape : mergePathOut (opsOf st) name al now attrs0 [] =
        ⟨EOK, mergeWriteBag attrs0 name al now [],
         [Event.txStart EOK, Event.search (LdbFilter.exact SYSDB_NAME name),
          Event.storeCustom name SSH_HOSTS_SUBDIR
            (mergeWriteBag attrs0 name al now []),
          Event.txCommit EOK]⟩ := by
      simp [mergePathOut, opsOf]
    have hpre : storedAliases st name = [] := by simp [storedAliases, hl]
    have hkAlias : ((mergeWriteBag attrs0 name al now []).any
        fun q => q.1 == SYSDB_NAME_ALIAS) = true := by
      apply any_key_of_valuesOf_ne
      rw [mergeWriteBag_aliases attrs0 name al now [] hcAlias]
      simp
    have hkLast : ((mergeWriteBag attrs0 name al now []).any
        fun q => q.1 == SYSDB_LAST_UPDATE) = true := by
      apply any_key_of_valuesOf_ne
      rw [mergeWriteBag_lastUpdate attrs0 name al now [] hcLast]
      simp
    have hkOC : ((mergeWriteBag attrs0 name al now []).any
        fun q => q.1 == SYSDB_OBJECTCLASS_ATTR) = true := by
      apply any_key_of_valuesOf_ne
      rw [mergeWriteBag_oc attrs0 name al now [] hcOC]
      simp
    refine ⟨_, hup, ?_, ?_, ?_, ?_⟩ <;> rw [hshape]
    · show storedValues
          (storeMerge st name (mergeWriteBag attrs0 name al now [])) name
          SYSDB_NAME_ALIAS = _
      rw [storedValues_storeMerge_key st name _ _ hkAlias,
        mergeWriteBag_aliases attrs0 name al now [] hcAlias, hpre]
      simp
    · show storedValues
          (storeMerge st name (mergeWriteBag attrs0 name al now [])) name
          SYSDB_LAST_UPDATE = _
      rw [storedValues_storeMerge_key st name _ _ hkLast,
        mergeWriteBag_lastUpdate attrs0 name al now [] hcLast]
    · show storedValues
          (storeMerge st name (mergeWriteBag attrs0 name al now [])) name
          SYSDB_OBJECTCLASS_ATTR = _
      rw [storedValues_storeMerge_key st name _ _ hkOC,
        mergeWriteBag_oc attrs0 name al now [] hcOC]
  | some a =>
    have hsr : (opsOf st).search (LdbFilter.exact SYSDB_NAME name)
        (some [SYSDB_NAME_ALIAS]) =
        (EOK, [attrsToMsg (some [SYSDB_NAME_ALIAS]) a]) := by
      show sysdb_search_custom st _ _ = _
      rw [hsc, hl]
    have hup := upsert_merge_found (opsOf st) name al now attrs0
      (attrsToMsg (some [SYSDB_NAME_ALIAS]) a) rfl hsr
    rw [msgAliases_attrsToMsg a] at hup
    have hpre : storedAliases st name = valuesOf a SYSDB_NAME_ALIAS := by
      simp [storedAliases, hl]
    have hshape : mergePathOut (opsOf st) name al now attrs0
        (valuesOf a SYSDB_NAME_ALIAS) =
        ⟨EOK, mergeWriteBag attrs0 name al now (valuesOf a SYSDB_NAME_ALIAS),
         [Event.txStart EOK, Event.search (LdbFilter.exact SYSDB_NAME name),
          Event.storeCustom name SSH_HOSTS_SUBDIR
            (mergeWriteBag attrs0 name al now (valuesOf a SYSDB_NAME_ALIAS)),
          Event.txCommit EOK]⟩ := by
      simp [mergePathOut, opsOf]
    have hkAlias : ((mergeWriteBag attrs0 name al now
        (valuesOf a SYSDB_NAME_ALIAS)).any
        fun q => q.1 == SYSDB_NAME_ALIAS) = true := by
      apply any_key_of_valuesOf_ne
      rw [mergeWriteBag_aliases attrs0 name al now _ hcAlias]
      by_cases hmem : Val.str al ∈ valuesOf a SYSDB_NAME_ALIAS
      · simpa [hmem] using List.ne_nil_of_mem hmem
      · simp [hmem]
    have hkLast : ((mergeWriteBag attrs0 name al now
        (valuesOf a SYSDB_NAME_ALIAS)).any
        fun q => q.1 == SYSDB_LAST_UPDATE) = true := by
      apply any_key_of_valuesOf_ne
      rw [mergeWriteBag_lastUpdate attrs0 name al now _ hcLast]
      simp
    have hkOC : ((mergeWriteBag attrs0 name al now
        (valuesOf a SYSDB_NAME_ALIAS)).any
        fun q => q.1 == SYSDB_OBJECTCLASS_ATTR) = true := by
      apply any_key_of_valuesOf_ne
      rw [mergeWriteBag_oc attrs0 name al now _ hcOC]
      simp
    refine ⟨_, hup, ?_, ?_, ?_, ?_⟩ <;> rw [hshape]
    · show storedValues
          (storeMerge st name (mergeWriteBag attrs0 name al now
            (valuesOf a SYSDB_NAME_ALIAS))) name SYSDB_NAME_ALIAS = _
      rw [storedValues_storeMerge_key st name _ _ hkAlias,
        mergeWriteBag_aliases attrs0 name al now _ hcAlias, hpre]
      by_cases hmem : Val.str al ∈ valuesOf a SYSDB_NAME_ALIAS <;>
        simp [hmem]
    · show storedValues
          (storeMerge st name (mergeWriteBag attrs0 name al now
            (valuesOf a SYSDB_NAME_ALIAS))) name SYSDB_LAST_UPDATE = _
      rw [storedValues_storeMerge_key st name _ _ hkLast,
        mergeWriteBag_lastUpdate attrs0 name al now _ hcLast]
    · show storedValues
          (storeMerge st name (mergeWriteBag attrs0 name al now
            (valuesOf a SYSDB_NAME_ALIAS))) name SYSDB_OBJECTCLASS_ATTR = _
      rw [storedValues_storeMerge_key st name _ _ hkOC,
        mergeWriteBag_oc attrs0 name al now _ hcOC]

/-- The one-record store used by the C1 witness: host1 already has one
alias. -/
def st1 : StoreState :=
  [("host1",
    [(SYSDB_NAME, Val.str "host1"),
     (SYSDB_NAME_ALIAS, Val.str "h1.example.com")])]

/-- Witness for C1: re-upserting host1 with a fresh alias on the one-record
store st1 succeeds and extends the alias list. -/
theorem upsert_merges_alias_set_witness :
    ∃ out, sysdb_store_ssh_host (opsOf st1) "host1"
        (some "h1-alt.example.com") 1010 [("region", Val.str "us")] =
        some out ∧
      out.ret = EOK ∧
      storedValues (applyEvents st1 out.events) "host1" SYSDB_NAME_ALIAS =
        (if Val.str "h1-alt.example.com" ∈ storedAliases st1 "host1" then
          storedAliases st1 "host1"
         else storedAliases st1 "host1" ++ [Val.str "h1-alt.example.com"]) ∧
      storedValues (applyEvents st1 out.events) "host1" SYSDB_LAST_UPDATE =
        [Val.time 1010] ∧
      storedValues (applyEvents st1 out.events) "host1"
          SYSDB_OBJECTCLASS_ATTR = [Val.str SYSDB_SSH_HOST_OC] :=
  upsert_merges_alias_set st1 "host1" "h1-alt.example.com" 1010
    [("region", Val.str "us")]
    ⟨by decide, by decide⟩ (by decide) (by decide) (by decide)


theorem attrsMatch_atLeast_eq_false (a : SysdbAttrs) (k : String) (n : Nat)
    (h : ∀ t, Val.time t ∈ valuesOf a k → t < n) :
    attrsMatch (LdbFilter.atLeast k n) a = false := by
  rw [← Bool.not_eq_true]
  intro hm
  rcases List.any_eq_true.mp hm with ⟨p, hp, hcond⟩
  rw [Bool.and_eq_true] at hcond
  obtain ⟨hk, hv⟩ := hcond
  cases hp2 : p.2 with
  | str s =>
    rw [hp2] at hv
    cases hv
  | time t =>
    rw [hp2] at hv
    have hle : n ≤ t := of_decide_eq_true hv
    have hmem : Val.time t ∈ valuesOf a k := by
      unfold valuesOf
      exact List.mem_map.mpr ⟨p, List.mem_filter.mpr ⟨hp, hk⟩, hp2⟩
    exact absurd hle (Nat.not_le.mpr (h t hmem))

/-- C4 counterexample: on the empty store nothing matches the range search,
and listLive returns the errno ENOENT - which is not the success code EOK -
even though its hosts out parameter is set to the empty sequence; the claimed
success outcome does not occur. -/
theorem listLive_counterexample :
    (sysdb_get_ssh_known_hosts (opsOf []) 5 none).1.ret = ENOENT ∧
      ENOENT ≠ EOK ∧
      (sysdb_get_ssh_known_hosts (opsOf []) 5 none).1.hosts = [] := by
  decide

/-- C4 amended: for every now, when no stored record has a known_hosts_expire
value greater than or equal to now, listLive returns the not-found errno
ENOENT together with the hosts out parameter set to the empty sequence (and
the num out parameter zero) - not a generic error, but not the success code
either. -/
theorem listLive_no_match_enoent_empty (st : StoreState) (now : Nat)
    (req : Option (List String))
    (h : ∀ p ∈ st, ∀ t,
      Val.time t ∈ valuesOf p.2 SYSDB_SSH_KNOWN_HOSTS_EXPIRE → t < now) :
    sysdb_get_ssh_known_hosts (opsOf st) now req =
      (⟨ENOENT, []⟩,
       [Event.search (LdbFilter.atLeast SYSDB_SSH_KNOWN_HOSTS_EXPIRE now)]) := by
  have hfil : st.filter
      (fun p =>
        attrsMatch (LdbFilter.atLeast SYSDB_SSH_KNOWN_HOSTS_EXPIRE now) p.2)
      = [] := by
    rw [List.filter_eq_nil_iff]
    intro p hp
    rw [attrsMatch_atLeast_eq_false p.2 _ now (h p hp)]
    simp
  have hsr : (opsOf st).search
      (LdbFilter.atLeast SYSDB_SSH_KNOWN_HOSTS_EXPIRE now) req =
      (ENOENT, []) := by
    show sysdb_search_custom st _ _ = _
    simp [sysdb_search_custom, hfil]
  simp [sysdb_get_ssh_known_hosts, sysdb_search_ssh_hosts, hsr, EOK, ENOENT]

/-- Witness for the amended C4: on the one-record store st1, whose record has
no expire value at all, listLive at now = 2000 reports ENOENT and an empty
sequence. -/
theorem listLive_no_match_enoent_empty_witness :
    sysdb_get_ssh_known_hosts (opsOf st1) 2000 none =
      (⟨ENOENT, []⟩,
       [Event.search
          (LdbFilter.atLeast SYSDB_SSH_KNOWN_HOSTS_EXPIRE 2000)]) :=
  listLive_no_match_enoent_empty st1 2000 none
    (by
      intro p hp t ht
      simp [st1] at hp
      rw [hp] at ht
      simp [valuesOf, List.filter_cons, SYSDB_NAME, SYSDB_NAME_ALIAS,
        SYSDB_SSH_KNOWN_HOSTS_EXPIRE] at ht)

end SysdbSsh
